import Mathlib

/-!
Verification of the clinical_note_miner batch extraction engine.

This file shallowly embeds the core of the repository
(clinical_note_miner/pipeline.py and clinical_note_miner/matcher.py)
in Lean and proves the specified properties about it.

Modelling conventions:
* Python dictionaries are modelled as association lists with unique keys;
  assignment keeps the original position of an existing key (as CPython does).
* JSON values (the output of json.loads) are modelled by the inductive JValue.
  The top-level payload of a chunk response is modelled directly by the
  outcome of parsing it — json.loads itself is foreign code — as
  Except String (List (String × JValue)): ok means the content parsed as a
  JSON object, error carries the parse-error text.
* The generation client (llm.py, foreign openai transport) is modelled as a
  stream of per-call responses, indexed by a global call counter; this also
  lets us count generation calls.
* Latencies are measured in abstract integer units (the float arithmetic of
  the source never influences control flow).
* The regular-expression engine of matcher.py (the foreign regex package) is
  a parameter producing the raw finditer match list.
-/

/-- JSON value, the result shape of json.loads. null also stands for
Python None. -/
inductive JValue where
  | null : JValue
  | bool (b : Bool) : JValue
  | num (n : Int) : JValue
  | str (s : String) : JValue
  | arr (elems : List JValue) : JValue
  | obj (fields : List (String × JValue)) : JValue

/-- Python truthiness of a JSON value: None, False, 0, empty string, empty
list and empty dict are falsy. -/
def jtruthy : JValue → Bool
  | .null => false
  | .bool b => b
  | .num n => n != 0
  | .str s => s != ""
  | .arr es => !es.isEmpty
  | .obj fs => !fs.isEmpty

/-- Dictionary lookup (d.get(k) / k in d) on an association list. -/
def jget (d : List (String × JValue)) (k : String) : Option JValue :=
  match d with
  | [] => none
  | (k2, v) :: rest => if k2 = k then some v else jget rest k

/-- Python dict assignment d[k] = v: replaces the value in place when the key
exists, appends otherwise (CPython keeps the first-insertion position). -/
def dictInsert {α : Type} (d : List (String × α)) (k : String) (v : α) :
    List (String × α) :=
  if (d.lookup k).isSome then
    d.map (fun p => if p.1 = k then (k, v) else p)
  else d ++ [(k, v)]

/-- Python dict.update(other): assign every key of other, in order. -/
def dictUpdate {α : Type} (d other : List (String × α)) : List (String × α) :=
  other.foldl (fun acc p => dictInsert acc p.1 p.2) d

/-- Python repr of a string (quotes the text; escaping of special characters
inside the text is not modelled). -/
def pyStrRepr (s : String) : String := "\x27" ++ s ++ "\x27"

/-- Python repr of a list of strings, as interpolated by f-strings in the
error messages of pipeline.py. -/
def pyListRepr (l : List String) : String :=
  "[" ++ String.intercalate ", " (l.map pyStrRepr) ++ "]"

/-- Boolean substring test, used to express that an error message references
a given chunk. -/
def containsSubstrB (s sub : String) : Bool :=
  (List.range (s.length + 1)).any (fun i => sub.toList.isPrefixOf (s.toList.drop i))

/-! ## matcher.py -/

/-- One match record produced by regex.finditer: start offset, end offset and
matched text. -/
structure MatchRec where
  start : Nat
  stop : Nat
  matchText : String
deriving DecidableEq

/-- Sort key used at the end of find_matches:
abs(len(m.match_text) - len(query)). -/
def matchKey (query : String) (m : MatchRec) : Nat :=
  ((m.matchText.length : Int) - (query.length : Int)).natAbs

/-- Insertion step of a stable sort by a natural-number key: the new element
goes before every element whose key is not strictly smaller. -/
def insertStable {α : Type} (key : α → Nat) (a : α) : List α → List α
  | [] => [a]
  | b :: bs => if key b < key a then b :: insertStable key a bs else a :: b :: bs

/-- Stable sort by key; extensionally the effect of Python list.sort(key=...),
which is a stable sort. -/
def stableSortByKey {α : Type} (key : α → Nat) : List α → List α
  | [] => []
  | x :: xs => insertStable key x (stableSortByKey key xs)

/-- The effective error budget of find_matches: the errors entry of
fuzzy_config when present, otherwise 2 for queries longer than 10
characters and 0 otherwise. -/
def computeErrors (query : String) (errorsCfg : Option Int) : Int :=
  match errorsCfg with
  | some e => e
  | none => if 10 < query.length then 2 else 0

/-- find_matches (matcher.py). The foreign regex engine is the parameter
engine, applied to the text, the (escaped) query and the error budget and
returning the finditer match list in document order. Empty query returns
no matches; otherwise the engine matches are sorted by how close their
length is to the query length. -/
def find_matches (engine : String → String → Int → List MatchRec)
    (text query : String) (errorsCfg : Option Int) : List MatchRec :=
  if query = "" then []
  else stableSortByKey (matchKey query) (engine text query (computeErrors query errorsCfg))

/-! ## Chunk planning (pipeline.py, process_note lines 157-163) -/

/-- Consecutive slices of size k+1 of a list, mirroring
for i in range(0, len(l), k+1): l[i:i+k+1]. The parameter is the slice
size minus one, and the extra fuel argument (instantiated with the list
length, which bounds the number of slices) makes the recursion
structural. -/
def chunkSlicesFuel {α : Type} (k : Nat) : Nat → List α → List (List α)
  | _, [] => []
  | 0, _ :: _ => []
  | fuel + 1, x :: xs =>
      (x :: xs).take (k + 1) :: chunkSlicesFuel k fuel ((x :: xs).drop (k + 1))

/-- Slices of size k+1, with enough fuel for the whole list. -/
def chunkSlices {α : Type} (k : Nat) (l : List α) : List (List α) :=
  chunkSlicesFuel k l.length l

/-- The chunk-splitting step of process_note: when max_elements_per_request
is set and positive (Python truthiness and the explicit > 0 check), the
target list is sliced into consecutive groups of that size; otherwise a
single chunk holds all targets. -/
def planChunks (targets : List String) (maxPer : Option Int) : List (List String) :=
  match maxPer with
  | some k => if 0 < k then chunkSlices (k.toNat - 1) targets else [targets]
  | none => [targets]

theorem chunkSlicesFuel_join {α : Type} (k : Nat) :
    ∀ (fuel : Nat) (l : List α), l.length ≤ fuel →
      (chunkSlicesFuel k fuel l).flatten = l := by
  intro fuel
  induction fuel with
  | zero =>
      intro l hl
      have hnil : l = [] := List.eq_nil_of_length_eq_zero (by omega)
      subst hnil
      rfl
  | succ fuel ih =>
      intro l hl
      match l with
      | [] => rfl
      | x :: xs =>
          have hdrop : (List.drop (k + 1) (x :: xs)).length ≤ fuel := by
            simp only [List.length_drop, List.length_cons] at hl ⊢
            omega
          rw [chunkSlicesFuel, List.flatten_cons, ih _ hdrop]
          exact List.take_append_drop _ _

theorem chunkSlices_join {α : Type} (k : Nat) (l : List α) :
    (chunkSlices k l).flatten = l :=
  chunkSlicesFuel_join k l.length l le_rfl

theorem chunkSlicesFuel_sizes {α : Type} (k : Nat) :
    ∀ (fuel : Nat) (l : List α), ∀ c ∈ chunkSlicesFuel k fuel l,
      c.length ≤ k + 1 := by
  intro fuel
  induction fuel with
  | zero =>
      intro l c hc
      match l with
      | [] => simp [chunkSlicesFuel] at hc
      | x :: xs => simp [chunkSlicesFuel] at hc
  | succ fuel ih =>
      intro l c hc
      match l with
      | [] => simp [chunkSlicesFuel] at hc
      | x :: xs =>
          rw [chunkSlicesFuel] at hc
          rcases List.mem_cons.mp hc with h | h
          · subst h
            simp [List.length_take]
          · exact ih _ c h

theorem chunkSlices_sizes {α : Type} (k : Nat) (l : List α) :
    ∀ c ∈ chunkSlices k l, c.length ≤ k + 1 :=
  chunkSlicesFuel_sizes k l.length l

theorem chunkSlicesFuel_length {α : Type} (k : Nat) :
    ∀ (fuel : Nat) (l : List α), l.length ≤ fuel →
      (chunkSlicesFuel k fuel l).length = (l.length + k) / (k + 1) := by
  intro fuel
  induction fuel with
  | zero =>
      intro l hl
      have hnil : l = [] := List.eq_nil_of_length_eq_zero (by omega)
      subst hnil
      simp only [chunkSlicesFuel, List.length_nil, Nat.zero_add]
      rw [Nat.div_eq_of_lt (Nat.lt_succ_self k)]
  | succ fuel ih =>
      intro l hl
      match l with
      | [] =>
          simp only [chunkSlicesFuel, List.length_nil, Nat.zero_add]
          rw [Nat.div_eq_of_lt (Nat.lt_succ_self k)]
      | x :: xs =>
          have hdrop : (List.drop (k + 1) (x :: xs)).length ≤ fuel := by
            simp only [List.length_drop, List.length_cons] at hl ⊢
            omega
          rw [chunkSlicesFuel]
          rw [List.length_cons, ih _ hdrop]
          simp only [List.length_drop, List.length_cons]
          rcases Nat.lt_or_ge (xs.length + 1) (k + 1) with h | h
          · have h1 : (xs.length + 1 - (k + 1) + k) / (k + 1) = 0 := by
              apply Nat.div_eq_of_lt
              omega
            have h2 : (xs.length + 1 + k) / (k + 1) = 1 := by
              rw [Nat.div_eq_sub_div (by omega) (by omega)]
              rw [Nat.div_eq_of_lt (by omega)]
            omega
          · have h2 : xs.length + 1 + k = (xs.length + 1 - (k + 1) + k) + (k + 1) := by
              omega
            rw [h2, Nat.add_div_right _ (by omega)]

theorem chunkSlices_length {α : Type} (k : Nat) (l : List α) :
    (chunkSlices k l).length = (l.length + k) / (k + 1) :=
  chunkSlicesFuel_length k l.length l le_rfl

/-! ## schema.py (the part consumed by the pipeline) -/

/-- ExtractionElement (schema.py): the two flags the pipeline consults. -/
structure ExtractionElement where
  grounding : Bool
  reasoning : Bool

/-- ExtractionSchema: ordered field-name/element map; get_element is lookup. -/
structure ExtractionSchema where
  elements : List (String × ExtractionElement)

/-- Association-list lookup used for schema.get_element(name). -/
def lookupElement : List (String × ExtractionElement) → String → Option ExtractionElement
  | [], _ => none
  | (k, v) :: rest, name => if k = name then some v else lookupElement rest name

/-- schema.get_element(name). -/
def getElement (schema : ExtractionSchema) (name : String) : Option ExtractionElement :=
  lookupElement schema.elements name

/-! ## llm.py boundary and _call_llm_with_retry (pipeline.py lines 63-81) -/

/-- Aggregatable token usage as returned by the generation client. -/
structure Usage where
  promptTokens : Nat
  completionTokens : Nat
  totalTokens : Nat

/-- The payload of one successful chat_completion call. message.content is
represented by the outcome of _parse_response on it (json.loads composed
with the markdown-fence stripping, which is foreign code): ok carries the
parsed JSON object, error carries the parse-error text. -/
structure LLMSuccess where
  parsedContent : Except String (List (String × JValue))
  latency : Nat
  usage : Option Usage
  reasoningContent : Option String

/-- Behaviour of one chat_completion call: a success=True result, a
success=False result with an optional error field, or a raised exception. -/
inductive AttemptResponse where
  | ok (r : LLMSuccess) : AttemptResponse
  | fail (error : Option String) : AttemptResponse
  | exn (msg : String) : AttemptResponse

/-- True when the call returned success=True. -/
def AttemptResponse.isOk : AttemptResponse → Bool
  | .ok _ => true
  | _ => false

/-- result.get(error) interpolated into an f-string: a missing or None error
prints as None. -/
def pyOptStr : Option String → String
  | some s => s
  | none => "None"

/-- The error string recorded for failed attempt number i (0-based): the
messages Attempt i+1: err and Attempt i+1: Exception msg of
_call_llm_with_retry. For a successful response no error is recorded. -/
def attemptFailMsg (i : Nat) : AttemptResponse → String
  | .fail e => "Attempt " ++ toString (i + 1) ++ ": " ++ pyOptStr e
  | .exn m => "Attempt " ++ toString (i + 1) ++ ": Exception " ++ m
  | .ok _ => ""

/-- Result of _call_llm_with_retry: success with the underlying call result
and errors accumulated before it, or failure with all accumulated errors. -/
inductive RetryResult where
  | success (result : LLMSuccess) (errors : List String) : RetryResult
  | failure (errors : List String) : RetryResult

/-- The errors list of a retry result (retry_result.get(errors, [])). -/
def RetryResult.errors : RetryResult → List String
  | .success _ errs => errs
  | .failure errs => errs

/-- The while loop of _call_llm_with_retry. client is the generation-client
call stream indexed by a global call counter; attempts and errors mirror
the loop state; the asyncio.sleep backoff is a pure delay and is not
modelled. Returns the retry result and the next value of the call
counter. -/
def callLLMWithRetryGo (client : Nat → AttemptResponse) (maxRetries : Nat) :
    Nat → Nat → Nat → List String → RetryResult × Nat
  | 0, _, callIdx, errors => (.failure errors, callIdx)
  | fuel + 1, attempts, callIdx, errors =>
      if attempts ≤ maxRetries then
        match client callIdx with
        | .ok r => (.success r errors, callIdx + 1)
        | resp =>
            callLLMWithRetryGo client maxRetries fuel (attempts + 1) (callIdx + 1)
              (errors ++ [attemptFailMsg attempts resp])
      else (.failure errors, callIdx)

/-- _call_llm_with_retry (pipeline.py lines 63-81). The loop runs while
attempts ≤ max_retries; the structural fuel maxRetries + 1 bounds the
remaining iterations (fuel runs out exactly when attempts exceeds
max_retries, and both exits return the accumulated failure). -/
def callLLMWithRetry (client : Nat → AttemptResponse) (callIdx maxRetries : Nat) :
    RetryResult × Nat :=
  callLLMWithRetryGo client maxRetries (maxRetries + 1) 0 callIdx []

/-! ## _post_process_extraction (pipeline.py lines 96-145) -/

/-- One grounding entry: the claimed snippet and the anchor offsets of its
approximate matches in the note text. -/
structure GroundingEntry where
  text : String
  anchors : List (Nat × Nat)

/-- The per-field output dictionary item_output: the answer value, the
reasoning value when the key is present, and the grounding list when the
key is present. -/
structure FieldOutput where
  answer : JValue
  reasoning : Option JValue
  grounding : Option (List GroundingEntry)

/-- Configuration of a BatchProcessor, restricted to what process_note
consults. engine stands for the foreign regex engine used by
find_matches and errorsCfg for fuzzy_config. -/
structure ProcessorConfig where
  schema : ExtractionSchema
  maxRetries : Nat
  maxElementsPerRequest : Option Int
  errorsCfg : Option Int
  engine : String → String → Int → List MatchRec

/-- element_names if element_names else list(self.schema.elements.keys()):
a missing or empty (falsy) list defaults to all schema fields. -/
def resolveTargets (schema : ExtractionSchema) : Option (List String) → List String
  | some (x :: xs) => x :: xs
  | _ => schema.elements.map Prod.fst

/-- The grounding snippets drawn from a grounding value: a string becomes a
one-element list, a list contributes its string elements. Non-string
entries (which would raise in the source) are outside the model. -/
def groundingSnippets : JValue → List String
  | .str s => [s]
  | .arr xs => xs.filterMap (fun v => match v with | .str s => some s | _ => none)
  | _ => []

/-- The grounding computation of _post_process_extraction: each snippet is
located with find_matches and contributes its anchors. -/
def buildGrounding (cfg : ProcessorConfig) (noteText : String) (gv : JValue) :
    List GroundingEntry :=
  (groundingSnippets gv).map (fun snippet =>
    { text := snippet
      anchors := (find_matches cfg.engine noteText snippet cfg.errorsCfg).map
        (fun m => (m.start, m.stop)) })

/-- The body of _post_process_extraction for one element (pipeline.py lines
110-143): shape-sniffing of the raw value, answer/value preference,
conditional reasoning and grounding. -/
def buildItemOutput (cfg : ProcessorConfig) (elDef : ExtractionElement)
    (rawVal : JValue) (noteText : String) : FieldOutput :=
  let triple : JValue × Option JValue × Option JValue :=
    match rawVal with
    | .obj kvs =>
        if (jget kvs "answer").isSome || (jget kvs "value").isSome then
          ((jget kvs "answer").getD ((jget kvs "value").getD .null),
            jget kvs "reasoning", jget kvs "grounding")
        else (rawVal, none, none)
    | _ => (rawVal, none, none)
  { answer := triple.1
    reasoning :=
      match triple.2.1 with
      | some r => if elDef.reasoning && jtruthy r then some r else none
      | none => none
    grounding :=
      match triple.2.2 with
      | some g =>
          if elDef.grounding && jtruthy g then some (buildGrounding cfg noteText g)
          else none
      | none => none }

/-- _post_process_extraction (pipeline.py lines 96-145): walks the target
elements in order, skips names the schema does not define and names
absent from the parsed payload, and assigns the built item into the
processed dictionary. -/
def postProcessExtraction (cfg : ProcessorConfig)
    (rawExtraction : List (String × JValue)) (noteText : String)
    (elementNames : Option (List String)) : List (String × FieldOutput) :=
  (resolveTargets cfg.schema elementNames).foldl
    (fun acc elName =>
      match getElement cfg.schema elName with
      | none => acc
      | some elDef =>
          match jget rawExtraction elName with
          | none => acc
          | some rawVal =>
              dictInsert acc elName (buildItemOutput cfg elDef rawVal noteText))
    []

/-! ## process_note (pipeline.py lines 147-259) -/

/-- The mutable per-document state threaded through the chunk loop of
process_note, plus the global call counter of the client stream. The
chunks_info list is reconstructed separately as the chunk trace. -/
structure ChunkState where
  callIdx : Nat
  merged : List (String × FieldOutput)
  allErrors : List String
  overallSuccess : Bool
  totalLatency : Nat
  totalUsage : Usage

/-- total_usage accumulation: absent usage contributes nothing, otherwise the
three counters are summed field by field. -/
def addUsage (total : Usage) : Option Usage → Usage
  | none => total
  | some u =>
      { promptTokens := total.promptTokens + u.promptTokens
        completionTokens := total.completionTokens + u.completionTokens
        totalTokens := total.totalTokens + u.totalTokens }

/-- The parse-failure error message of process_note. -/
def parseFailMsg (chunk : List String) (parseError : String) : String :=
  "Failed to parse JSON response for chunk " ++ pyListRepr chunk ++ ": " ++ parseError

/-- The retry-exhaustion error message of process_note. -/
def maxRetriesMsg (chunk : List String) : String :=
  "Max retries exceeded for chunk " ++ pyListRepr chunk

/-- One iteration of the chunk loop of process_note (lines 173-232): call the
retrying requester, extend the error list with its attempt errors, then on
success accumulate latency and usage and either merge the processed fields
(truthy parsed payload), or mark the document failed with a parse error
message (parse failure, or a falsy payload such as an empty JSON object);
on requester failure mark the document failed with the max-retries
message. Returns the new state and the chunk retry outcome. -/
def processChunk (cfg : ProcessorConfig) (client : Nat → AttemptResponse)
    (noteText : String) (st : ChunkState) (chunk : List String) :
    ChunkState × RetryResult :=
  let step := callLLMWithRetry client st.callIdx cfg.maxRetries
  let rr := step.1
  let errs0 := st.allErrors ++ rr.errors
  match rr with
  | .success r _ =>
      let lat := st.totalLatency + r.latency
      let usg := addUsage st.totalUsage r.usage
      match r.parsedContent with
      | .ok raw =>
          if raw.isEmpty then
            ({ callIdx := step.2
               merged := st.merged
               allErrors := errs0 ++ [parseFailMsg chunk "None"]
               overallSuccess := false
               totalLatency := lat
               totalUsage := usg }, rr)
          else
            ({ callIdx := step.2
               merged := dictUpdate st.merged
                 (postProcessExtraction cfg raw noteText (some chunk))
               allErrors := errs0
               overallSuccess := st.overallSuccess
               totalLatency := lat
               totalUsage := usg }, rr)
      | .error pe =>
          ({ callIdx := step.2
             merged := st.merged
             allErrors := errs0 ++ [parseFailMsg chunk pe]
             overallSuccess := false
             totalLatency := lat
             totalUsage := usg }, rr)
  | .failure _ =>
      ({ callIdx := step.2
         merged := st.merged
         allErrors := errs0 ++ [maxRetriesMsg chunk]
         overallSuccess := false
         totalLatency := st.totalLatency
         totalUsage := st.totalUsage }, rr)

/-- The chunk loop of process_note: fold processChunk over the planned
chunks, recording each chunk with its retry outcome. -/
def runChunks (cfg : ProcessorConfig) (client : Nat → AttemptResponse)
    (noteText : String) : List (List String) → ChunkState →
    ChunkState × List (List String × RetryResult)
  | [], st => (st, [])
  | c :: cs, st =>
      let step := processChunk cfg client noteText st c
      let rest := runChunks cfg client noteText cs step.1
      (rest.1, (c, step.2) :: rest.2)

/-- The output record of process_note restricted to the always-present keys
(id, extraction, errors, success, latency) plus the aggregated usage. -/
structure NoteOutput where
  id : String
  extraction : List (String × FieldOutput)
  errors : List String
  success : Bool
  latency : Nat
  usage : Usage

/-- A run of process_note: its output record, the next value of the client
call counter, and the per-chunk trace (chunk fields with retry outcome),
mirroring chunks_info. -/
structure NoteRun where
  output : NoteOutput
  nextCall : Nat
  trace : List (List String × RetryResult)

/-- process_note (pipeline.py lines 147-259): resolve targets, plan chunks,
run each chunk through the retrying requester sequentially, and assemble
the document result. -/
def processNote (cfg : ProcessorConfig) (client : Nat → AttemptResponse)
    (callIdx : Nat) (noteId noteText : String)
    (elementNames : Option (List String)) : NoteRun :=
  let targets := resolveTargets cfg.schema elementNames
  let chunks := planChunks targets cfg.maxElementsPerRequest
  let init : ChunkState :=
    { callIdx := callIdx, merged := [], allErrors := [], overallSuccess := true
      totalLatency := 0, totalUsage := ⟨0, 0, 0⟩ }
  let run := runChunks cfg client noteText chunks init
  { output :=
      { id := noteId
        extraction := run.1.merged
        errors := run.1.allErrors
        success := run.1.overallSuccess
        latency := run.1.totalLatency
        usage := run.1.totalUsage }
    nextCall := run.1.callIdx
    trace := run.2 }

/-! ## process_batch (pipeline.py lines 261-296)

The asynchronous dispatcher is modelled in two complementary ways. The
sequential model below fixes which documents are submitted and how many
generation calls are made (the resume-skip logic of lines 272-275); the
completion order of the live output, immaterial to those questions, is
abstracted to submission order. The transition system further down models
the suspension structure of the loop for the in-flight bound. -/

def processBatch (cfg : ProcessorConfig) (client : Nat → AttemptResponse)
    (completedIds : List String) (callIdx : Nat)
    (elementNames : Option (List String)) :
    List (String × String) → List NoteOutput × Nat
  | [] => ([], callIdx)
  | (noteId, noteText) :: rest =>
      if completedIds.contains noteId then
        processBatch cfg client completedIds callIdx elementNames rest
      else
        let run := processNote cfg client callIdx noteId noteText elementNames
        let tail := processBatch cfg client completedIds run.nextCall elementNames rest
        (run.output :: tail.1, tail.2)

/-! ## _load_completed_ids (pipeline.py lines 54-61) -/

/-- One line of the ledger file as seen by the jsonlines reader: a JSON
object that has an id, one that does not, or an unparseable line. -/
inductive LedgerLine where
  | withId (id : String) : LedgerLine
  | noId : LedgerLine
  | malformed (raw : String) : LedgerLine
deriving DecidableEq

/-- Iteration of the jsonlines reader over the ledger lines, accumulating the
id set: an invalid line raises InvalidLineError, which
_load_completed_ids does not catch. -/
def readLedgerLines : List LedgerLine → List String → Except String (List String)
  | [], acc => .ok acc
  | .withId i :: rest, acc =>
      readLedgerLines rest (if acc.contains i then acc else acc ++ [i])
  | .noId :: rest, acc => readLedgerLines rest acc
  | .malformed raw :: _, _ => .error ("InvalidLineError: " ++ raw)

/-- _load_completed_ids: a missing file (none) raises FileNotFoundError,
which is caught, leaving the id set empty; otherwise the file's lines are
read in order. -/
def loadCompletedIds : Option (List LedgerLine) → Except String (List String)
  | none => .ok []
  | some lines => readLedgerLines lines []

/-! ## The dispatcher loop as a transition system (pipeline.py lines 268-296)

States record the size of pending_tasks at a suspension point of
process_batch and whether the coroutine is suspended in asyncio.wait
(inWait) or awaiting the next input document / finished pulling input.
avail is the current value of the concurrency semaphore, never above the
construction-time cap C; the threshold of line 283 reads it at check
time. asyncio.wait with FIRST_COMPLETED returns once at least one —
not necessarily every — task finishes. -/

structure DispatchState where
  pending : Nat
  inWait : Bool

inductive DispatchStep (C : Nat) : DispatchState → DispatchState → Prop
  | submitNoWait (p avail : Nat) (hav : avail ≤ C) (hsem : p + 1 < 2 * avail) :
      DispatchStep C ⟨p, false⟩ ⟨p + 1, false⟩
  | submitWait (p avail : Nat) (hav : avail ≤ C) (hsem : 2 * avail ≤ p + 1) :
      DispatchStep C ⟨p, false⟩ ⟨p + 1, true⟩
  | waitComplete (p k : Nat) (hk1 : 1 ≤ k) (hkp : k ≤ p) :
      DispatchStep C ⟨p, true⟩ ⟨p - k, false⟩
  | drainWait (p : Nat) (hp : 1 ≤ p) :
      DispatchStep C ⟨p, false⟩ ⟨p, true⟩

/-- Reachability of a dispatcher state from the start of process_batch (no
pending task, awaiting the first document). -/
def DispatchReachable (C : Nat) (s : DispatchState) : Prop :=
  Relation.ReflTransGen (DispatchStep C) ⟨0, false⟩ s

/-! ## process_batch_sync (pipeline.py lines 298-398)

The thread boundary is modelled by the message protocol on the handoff
queue: the background context enqueues one item message per yielded
result, then on an unhandled exception an error message, and always a
final done message (the finally block); cancellation enqueues no error
message. The consumer loop yields items until done, and re-raises the
payload of an error message. -/

inductive BridgeMsg where
  | item (r : NoteOutput) : BridgeMsg
  | bgError (e : String) : BridgeMsg
  | done : BridgeMsg

/-- How the background run terminated: normally, with an unhandled
exception, or cancelled. -/
inductive BgOutcome where
  | completed : BgOutcome
  | failed (e : String) : BgOutcome
  | cancelled : BgOutcome

/-- The message sequence the background thread puts on the result queue
(async_wrapper, lines 318-339). -/
def backgroundMessages (results : List NoteOutput) (outcome : BgOutcome) :
    List BridgeMsg :=
  results.map .item ++
    (match outcome with
     | .failed e => [.bgError e]
     | _ => []) ++ [.done]

/-- The consumer polling loop (lines 377-390): collect items until done,
re-raise the payload of an error message, stop cleanly if the queue
drains with the thread dead. -/
def consumeMessages : List BridgeMsg → Except String (List NoteOutput)
  | [] => .ok []
  | .item r :: rest =>
      match consumeMessages rest with
      | .ok rs => .ok (r :: rs)
      | .error e => .error e
  | .bgError e :: _ => .error e
  | .done :: _ => .ok []

/-! ## Helper lemmas for the retrying requester -/

theorem attemptMsgs_shift (f : Nat → AttemptResponse) (a c m : Nat) :
    (List.range (m + 1)).map (fun j => attemptFailMsg (a + j) (f (c + j))) =
      attemptFailMsg a (f c) ::
        (List.range m).map (fun j => attemptFailMsg (a + 1 + j) (f (c + 1 + j))) := by
  rw [List.range_succ_eq_map]
  simp only [List.map_cons, List.map_map, Nat.add_zero]
  congr 1
  apply List.map_congr_left
  intro j _
  simp only [Function.comp]
  rw [show a + (j + 1) = a + 1 + j from by omega,
    show c + (j + 1) = c + 1 + j from by omega]

theorem callLLMWithRetryGo_all_fail (client : Nat → AttemptResponse)
    (r : Nat) : ∀ fuel a c errs, fuel = r + 1 - a →
    (∀ j, a + j ≤ r → (client (c + j)).isOk = false) →
    callLLMWithRetryGo client r fuel a c errs =
      (.failure (errs ++ (List.range (r + 1 - a)).map
        (fun j => attemptFailMsg (a + j) (client (c + j)))), c + (r + 1 - a)) := by
  intro fuel
  induction fuel with
  | zero =>
      intro a c errs hfuel _
      have h0 : r + 1 - a = 0 := by omega
      rw [callLLMWithRetryGo]
      simp [h0]
  | succ fuel ih =>
      intro a c errs hfuel hfail
      have ha : a ≤ r := by omega
      have h0 : (client c).isOk = false := by
        have := hfail 0 (by omega)
        simpa using this
      have hshift : ∀ j, a + 1 + j ≤ r → (client (c + 1 + j)).isOk = false := by
        intro j hj
        have := hfail (j + 1) (by omega)
        rwa [show c + (j + 1) = c + 1 + j from by omega] at this
      have hrange := attemptMsgs_shift client a c (r - a)
      rw [show r - a + 1 = r + 1 - a from by omega] at hrange
      rcases hcl : client c with r0 | e | m
      · rw [hcl] at h0
        simp [AttemptResponse.isOk] at h0
      · have hrec := ih (a + 1) (c + 1)
          (errs ++ [attemptFailMsg a (AttemptResponse.fail e)]) (by omega) hshift
        rw [show r + 1 - (a + 1) = r - a from by omega] at hrec
        rw [callLLMWithRetryGo, if_pos ha, hcl, hrange, hcl]
        rw [← List.singleton_append, ← List.append_assoc]
        rw [show c + (r + 1 - a) = c + 1 + (r - a) from by omega]
        exact hrec
      · have hrec := ih (a + 1) (c + 1)
          (errs ++ [attemptFailMsg a (AttemptResponse.exn m)]) (by omega) hshift
        rw [show r + 1 - (a + 1) = r - a from by omega] at hrec
        rw [callLLMWithRetryGo, if_pos ha, hcl, hrange, hcl]
        rw [← List.singleton_append, ← List.append_assoc]
        rw [show c + (r + 1 - a) = c + 1 + (r - a) from by omega]
        exact hrec

theorem callLLMWithRetryGo_first_ok (client : Nat → AttemptResponse)
    (r : Nat) : ∀ k fuel a c errs payload, fuel = r + 1 - a → a + k ≤ r →
    client (c + k) = .ok payload →
    (∀ i, i < k → (client (c + i)).isOk = false) →
    callLLMWithRetryGo client r fuel a c errs =
      (.success payload (errs ++ (List.range k).map
        (fun i => attemptFailMsg (a + i) (client (c + i)))), c + k + 1) := by
  intro k
  induction k with
  | zero =>
      intro fuel a c errs payload hfuel hak hok _
      obtain ⟨f2, rfl⟩ : ∃ f2, fuel = f2 + 1 := ⟨r - a, by omega⟩
      rw [callLLMWithRetryGo, if_pos (by omega : a ≤ r)]
      simp only [Nat.add_zero] at hok
      rw [hok]
      simp
  | succ k ih =>
      intro fuel a c errs payload hfuel hak hok hfail
      obtain ⟨f2, rfl⟩ : ∃ f2, fuel = f2 + 1 := ⟨r - a, by omega⟩
      have h0 : (client c).isOk = false := by
        have := hfail 0 (by omega)
        simpa using this
      have hrange := attemptMsgs_shift client a c k
      rcases hcl : client c with r0 | e | m
      · rw [hcl] at h0
        simp [AttemptResponse.isOk] at h0
      · have hrec := ih f2 (a + 1) (c + 1)
          (errs ++ [attemptFailMsg a (AttemptResponse.fail e)]) payload (by omega) (by omega)
          (by rw [show c + 1 + k = c + (k + 1) from by omega]; exact hok)
          (fun i hi => by
            have := hfail (i + 1) (by omega)
            rwa [show c + (i + 1) = c + 1 + i from by omega] at this)
        rw [callLLMWithRetryGo, if_pos (by omega : a ≤ r), hcl, hrange, hcl]
        rw [← List.singleton_append, ← List.append_assoc]
        rw [show c + (k + 1) + 1 = c + 1 + k + 1 from by omega]
        exact hrec
      · have hrec := ih f2 (a + 1) (c + 1)
          (errs ++ [attemptFailMsg a (AttemptResponse.exn m)]) payload (by omega) (by omega)
          (by rw [show c + 1 + k = c + (k + 1) from by omega]; exact hok)
          (fun i hi => by
            have := hfail (i + 1) (by omega)
            rwa [show c + (i + 1) = c + 1 + i from by omega] at this)
        rw [callLLMWithRetryGo, if_pos (by omega : a ≤ r), hcl, hrange, hcl]
        rw [← List.singleton_append, ← List.append_assoc]
        rw [show c + (k + 1) + 1 = c + 1 + k + 1 from by omega]
        exact hrec

theorem callLLMWithRetryGo_calls_le (client : Nat → AttemptResponse)
    (r : Nat) : ∀ fuel a c errs,
    (callLLMWithRetryGo client r fuel a c errs).2 ≤ c + fuel := by
  intro fuel
  induction fuel with
  | zero =>
      intro a c errs
      rw [callLLMWithRetryGo]
      show c ≤ c + 0
      omega
  | succ fuel ih =>
      intro a c errs
      by_cases ha : a ≤ r
      · rcases hcl : client c with r0 | e | m
        all_goals rw [callLLMWithRetryGo, if_pos ha, hcl]
        · show c + 1 ≤ c + (fuel + 1)
          omega
        · show (callLLMWithRetryGo client r fuel (a + 1) (c + 1)
            (errs ++ [attemptFailMsg a (AttemptResponse.fail e)])).2 ≤ c + (fuel + 1)
          have := ih (a + 1) (c + 1)
            (errs ++ [attemptFailMsg a (AttemptResponse.fail e)])
          omega
        · show (callLLMWithRetryGo client r fuel (a + 1) (c + 1)
            (errs ++ [attemptFailMsg a (AttemptResponse.exn m)])).2 ≤ c + (fuel + 1)
          have := ih (a + 1) (c + 1)
            (errs ++ [attemptFailMsg a (AttemptResponse.exn m)])
          omega
      · rw [callLLMWithRetryGo, if_neg ha]
        show c ≤ c + (fuel + 1)
        omega

/-! ## Claim C2 -/

/-- C2: for every ordered target-field list, a chunk cap k > 0 makes the
chunk planner produce ceil(n/k) chunks, each of size at most k, whose
in-order concatenation equals the original list (so nothing is reordered,
dropped or duplicated); a cap that is absent or ≤ 0 yields a single chunk
equal to the original list. -/
theorem claim_C2_chunk_planner (targets : List String) (maxPer : Option Int) :
    ((maxPer = none ∨ ∃ k : Int, maxPer = some k ∧ k ≤ 0) →
      planChunks targets maxPer = [targets]) ∧
    (∀ k : Int, maxPer = some k → 0 < k →
      (planChunks targets maxPer).length = (targets.length + k.toNat - 1) / k.toNat ∧
      (∀ c ∈ planChunks targets maxPer, c.length ≤ k.toNat) ∧
      (planChunks targets maxPer).flatten = targets) := by
  constructor
  · rintro (h | ⟨k, hk, hk0⟩)
    · rw [h, planChunks]
    · rw [hk, planChunks]
      rw [if_neg (by omega)]
  · rintro k rfl hk
    have hm : 1 ≤ k.toNat := by omega
    simp only [planChunks, if_pos hk]
    refine ⟨?_, ?_, ?_⟩
    · rw [chunkSlices_length]
      rw [show k.toNat - 1 + 1 = k.toNat from by omega,
        show targets.length + (k.toNat - 1) = targets.length + k.toNat - 1 from by omega]
    · intro c hc
      have := chunkSlices_sizes (k.toNat - 1) targets c hc
      omega
    · exact chunkSlices_join _ _

theorem claim_C2_chunk_planner_witness :
    planChunks ["a", "b", "c"] none = [["a", "b", "c"]] ∧
    planChunks ["a", "b", "c"] (some (-1)) = [["a", "b", "c"]] ∧
    (planChunks ["a", "b", "c"] (some 2)).length = 2 ∧
    (planChunks ["a", "b", "c"] (some 2)).flatten = ["a", "b", "c"] := by
  have h1 := (claim_C2_chunk_planner ["a", "b", "c"] none).1 (Or.inl rfl)
  have h2 := (claim_C2_chunk_planner ["a", "b", "c"] (some (-1))).1
    (Or.inr ⟨-1, rfl, by omega⟩)
  have h3 := (claim_C2_chunk_planner ["a", "b", "c"] (some 2)).2 2 rfl (by omega)
  refine ⟨h1, h2, ?_, h3.2.2⟩
  rw [h3.1]
  decide

/-! ## Claim C3 -/

/-- C3: with max_retries = r the retrying requester makes at most r+1
generation calls; it returns success at the first attempt that succeeds,
carrying the error messages of the earlier failed attempts; and when all
r+1 attempts fail it returns failure carrying exactly r+1 error messages,
one per attempt in order — attemptFailMsg i labels the 0-based attempt i
with the 1-based index i+1. The call counter starts at start; the second
component of the result is the counter after the call. -/
theorem claim_C3_retry (client : Nat → AttemptResponse) (start r : Nat) :
    ((callLLMWithRetry client start r).2 ≤ start + (r + 1)) ∧
    (∀ k payload, k ≤ r → client (start + k) = .ok payload →
      (∀ i, i < k → (client (start + i)).isOk = false) →
      callLLMWithRetry client start r =
        (.success payload ((List.range k).map
          (fun i => attemptFailMsg i (client (start + i)))), start + k + 1)) ∧
    ((∀ i, i ≤ r → (client (start + i)).isOk = false) →
      callLLMWithRetry client start r =
        (.failure ((List.range (r + 1)).map
          (fun i => attemptFailMsg i (client (start + i)))), start + (r + 1))) := by
  refine ⟨?_, ?_, ?_⟩
  · have := callLLMWithRetryGo_calls_le client r (r + 1) 0 start []
    rw [callLLMWithRetry]
    omega
  · intro k payload hk hok hfail
    have h := callLLMWithRetryGo_first_ok client r k (r + 1) 0 start [] payload
      (by omega) (by omega) hok hfail
    rw [callLLMWithRetry, h]
    simp
  · intro hfail
    have h := callLLMWithRetryGo_all_fail client r (r + 1) 0 start [] (by omega)
      (fun j hj => hfail j (by omega))
    rw [callLLMWithRetry, h]
    simp

theorem claim_C3_retry_witness :
    callLLMWithRetry (fun _ => AttemptResponse.fail (some "boom")) 0 1 =
      (.failure ["Attempt 1: boom", "Attempt 2: boom"], 2) ∧
    callLLMWithRetry (fun i => if i < 2 then AttemptResponse.fail (some "boom")
        else AttemptResponse.ok ⟨.ok [], 3, none, none⟩) 0 5 =
      (.success ⟨.ok [], 3, none, none⟩ ["Attempt 1: boom", "Attempt 2: boom"], 3) := by
  constructor
  · have h := (claim_C3_retry (fun _ => AttemptResponse.fail (some "boom")) 0 1).2.2
      (fun i _ => rfl)
    rw [h]
    rfl
  · have h := (claim_C3_retry (fun i => if i < 2 then AttemptResponse.fail (some "boom")
        else AttemptResponse.ok ⟨.ok [], 3, none, none⟩) 0 5).2.1
      2 ⟨.ok [], 3, none, none⟩ (by omega) rfl
      (fun i hi => by
        interval_cases i <;> rfl)
    rw [h]
    rfl

/-! ## Stable-sort lemmas for the matcher -/

theorem insertStable_perm {α : Type} (key : α → Nat) (a : α) (l : List α) :
    (insertStable key a l).Perm (a :: l) := by
  induction l with
  | nil => simp [insertStable]
  | cons b bs ih =>
      rw [insertStable]
      by_cases h : key b < key a
      · rw [if_pos h]
        exact (ih.cons b).trans (List.Perm.swap a b bs)
      · rw [if_neg h]

theorem stableSortByKey_perm {α : Type} (key : α → Nat) (l : List α) :
    (stableSortByKey key l).Perm l := by
  induction l with
  | nil => simp [stableSortByKey]
  | cons x xs ih =>
      rw [stableSortByKey]
      exact (insertStable_perm key x _).trans (ih.cons x)

theorem insertStable_sorted {α : Type} (key pos : α → Nat) (a : α) (l : List α)
    (hl : l.Pairwise (fun x y => key x < key y ∨ (key x = key y ∧ pos x ≤ pos y)))
    (ha : ∀ b ∈ l, pos a ≤ pos b) :
    (insertStable key a l).Pairwise
      (fun x y => key x < key y ∨ (key x = key y ∧ pos x ≤ pos y)) := by
  induction l with
  | nil => simp [insertStable]
  | cons b bs ih =>
      rw [insertStable]
      rcases List.pairwise_cons.mp hl with ⟨hb, hbs⟩
      by_cases h : key b < key a
      · rw [if_pos h]
        refine List.pairwise_cons.mpr ⟨?_, ih hbs (fun c hc => ha c (by simp [hc]))⟩
        intro c hc
        have hmem : c ∈ a :: bs := (insertStable_perm key a bs).mem_iff.mp hc
        rcases List.mem_cons.mp hmem with rfl | hcbs
        · exact Or.inl h
        · exact hb c hcbs
      · rw [if_neg h]
        refine List.pairwise_cons.mpr ⟨?_, hl⟩
        intro c hc
        rcases List.mem_cons.mp hc with rfl | hcbs
        · rcases Nat.lt_or_ge (key a) (key c) with hlt | hge
          · exact Or.inl hlt
          · exact Or.inr ⟨by omega, ha c (by simp)⟩
        · have hkbc : key b ≤ key c := by
            rcases hb c hcbs with h1 | ⟨h1, _⟩ <;> omega
          rcases Nat.lt_or_ge (key a) (key c) with hlt | hge
          · exact Or.inl hlt
          · exact Or.inr ⟨by omega, ha c (by simp [hcbs])⟩

theorem stableSortByKey_sorted {α : Type} (key pos : α → Nat) (l : List α)
    (hl : l.Pairwise (fun x y => pos x ≤ pos y)) :
    (stableSortByKey key l).Pairwise
      (fun x y => key x < key y ∨ (key x = key y ∧ pos x ≤ pos y)) := by
  induction l with
  | nil => simp [stableSortByKey]
  | cons x xs ih =>
      rw [stableSortByKey]
      rcases List.pairwise_cons.mp hl with ⟨hx, hxs⟩
      refine insertStable_sorted key pos x _ (ih hxs) ?_
      intro b hb
      exact hx b ((stableSortByKey_perm key xs).mem_iff.mp hb)

/-! ## Claim C7 -/

/-- C7: for every document text and non-empty claimed text, find_matches
returns exactly the matches the regex engine found (a permutation of
them), ordered by ascending distance of the match length from the claimed
text's length with ties broken by earliest start position — provided the
engine emits its matches in document order, as regex.finditer does — and
it is deterministic: a second call on identical inputs returns the
identical result. -/
theorem claim_C7_matcher_order (engine : String → String → Int → List MatchRec)
    (text query : String) (errorsCfg : Option Int) (hq : query ≠ "")
    (hsorted : (engine text query (computeErrors query errorsCfg)).Pairwise
      (fun a b => a.start ≤ b.start)) :
    (find_matches engine text query errorsCfg).Perm
      (engine text query (computeErrors query errorsCfg)) ∧
    (find_matches engine text query errorsCfg).Pairwise
      (fun a b => matchKey query a < matchKey query b ∨
        (matchKey query a = matchKey query b ∧ a.start ≤ b.start)) ∧
    (∀ text2 query2 cfg2, text2 = text → query2 = query → cfg2 = errorsCfg →
      find_matches engine text2 query2 cfg2 = find_matches engine text query errorsCfg) := by
  refine ⟨?_, ?_, ?_⟩
  · rw [find_matches, if_neg hq]
    exact stableSortByKey_perm _ _
  · rw [find_matches, if_neg hq]
    exact stableSortByKey_sorted (matchKey query) MatchRec.start _ hsorted
  · intro text2 query2 cfg2 h1 h2 h3
    rw [h1, h2, h3]

theorem claim_C7_matcher_order_witness :
    (find_matches (fun _ _ _ => [⟨5, 7, "ab"⟩, ⟨9, 10, "a"⟩]) "note text" "a" none).Perm
      [⟨5, 7, "ab"⟩, ⟨9, 10, "a"⟩] ∧
    (find_matches (fun _ _ _ => [⟨5, 7, "ab"⟩, ⟨9, 10, "a"⟩]) "note text" "a" none).Pairwise
      (fun a b => matchKey "a" a < matchKey "a" b ∨
        (matchKey "a" a = matchKey "a" b ∧ a.start ≤ b.start)) :=
  ⟨(claim_C7_matcher_order (fun _ _ _ => [⟨5, 7, "ab"⟩, ⟨9, 10, "a"⟩]) "note text" "a"
      none (by decide) (by decide)).1,
    (claim_C7_matcher_order (fun _ _ _ => [⟨5, 7, "ab"⟩, ⟨9, 10, "a"⟩]) "note text" "a"
      none (by decide) (by decide)).2.1⟩

/-! ## Claim C9 -/

/-- C9: an exception raised inside the background execution context during a
synchronous batch run (other than cancellation, which the background
wrapper swallows) is enqueued on the handoff queue and re-raised as-is by
the consumer loop of process_batch_sync instead of being lost. -/
theorem claim_C9_bridge_rethrow (results : List NoteOutput) (e : String) :
    consumeMessages (backgroundMessages results (BgOutcome.failed e)) =
      .error e := by
  induction results with
  | nil => rfl
  | cons r rs ih =>
      show consumeMessages
        (.item r :: backgroundMessages rs (BgOutcome.failed e)) = .error e
      rw [consumeMessages, ih]

/-! ## Claim C6 -/

theorem readLedgerLines_ok (lines : List LedgerLine)
    (h : ∀ l ∈ lines, ∀ raw, l ≠ LedgerLine.malformed raw) :
    ∀ acc, (readLedgerLines lines acc).isOk = true := by
  induction lines with
  | nil => intro acc; rfl
  | cons l rest ih =>
      intro acc
      match l with
      | .withId i =>
          rw [readLedgerLines]
          exact ih (fun l2 hl2 => h l2 (by simp [hl2])) _
      | .noId =>
          rw [readLedgerLines]
          exact ih (fun l2 hl2 => h l2 (by simp [hl2])) _
      | .malformed raw =>
          exact absurd rfl (h (LedgerLine.malformed raw) (by simp) raw)

theorem readLedgerLines_err (raw : String) (rest : List LedgerLine) :
    ∀ (good : List LedgerLine), (∀ g ∈ good, ∀ r2, g ≠ LedgerLine.malformed r2) →
    ∀ acc, readLedgerLines (good ++ LedgerLine.malformed raw :: rest) acc =
      .error ("InvalidLineError: " ++ raw) := by
  intro good
  induction good with
  | nil => intro _ acc; rfl
  | cons g gs ih =>
      intro h acc
      match g with
      | .withId i =>
          rw [List.cons_append, readLedgerLines]
          exact ih (fun g2 hg2 => h g2 (by simp [hg2])) _
      | .noId =>
          rw [List.cons_append, readLedgerLines]
          exact ih (fun g2 hg2 => h g2 (by simp [hg2])) _
      | .malformed r2 =>
          exact absurd rfl (h (LedgerLine.malformed r2) (by simp) r2)

/-- C6 counterexample: a ledger file consisting of one malformed line makes
_load_completed_ids propagate the jsonlines InvalidLineError (only
FileNotFoundError is caught), so loading does not yield an id set — the
claim that loading never raises and treats a malformed file as the empty
set fails on this input. -/
theorem claim_C6_counterexample :
    (loadCompletedIds (some [LedgerLine.malformed "not json"])).isOk = false := rfl

/-- C6 amended: building the resume id set treats a missing ledger file as
the empty set without error, and succeeds on every well-formed file; but a
malformed line is not tolerated: the reader's error propagates out of the
load (after any well-formed prefix), rather than yielding an empty set. -/
theorem claim_C6_ledger_load (lines : List LedgerLine) :
    loadCompletedIds none = .ok [] ∧
    ((∀ l ∈ lines, ∀ raw, l ≠ LedgerLine.malformed raw) →
      (loadCompletedIds (some lines)).isOk = true) ∧
    (∀ good raw rest, lines = good ++ LedgerLine.malformed raw :: rest →
      (∀ g ∈ good, ∀ r2, g ≠ LedgerLine.malformed r2) →
      loadCompletedIds (some lines) = .error ("InvalidLineError: " ++ raw)) := by
  refine ⟨rfl, ?_, ?_⟩
  · intro h
    exact readLedgerLines_ok lines h []
  · rintro good raw rest rfl hgood
    exact readLedgerLines_err raw rest good hgood []

theorem claim_C6_ledger_load_witness :
    loadCompletedIds none = .ok [] ∧
    (loadCompletedIds (some [LedgerLine.withId "A"])).isOk = true ∧
    loadCompletedIds (some [LedgerLine.withId "A", LedgerLine.malformed "oops"]) =
      .error "InvalidLineError: oops" := by
  refine ⟨(claim_C6_ledger_load []).1, ?_, ?_⟩
  · exact (claim_C6_ledger_load [LedgerLine.withId "A"]).2.1
      (by rintro l hl raw; simp at hl; simp [hl])
  · have h := (claim_C6_ledger_load
      [LedgerLine.withId "A", LedgerLine.malformed "oops"]).2.2
      [LedgerLine.withId "A"] "oops" [] rfl
      (by rintro g hg r2; simp at hg; simp [hg])
    exact h.trans (by rfl)

/-! ## Claim C10 -/

/-- C10: in _post_process_extraction, when a parsed field value is an object
holding both an answer key and a value key, the FieldResult answer is the
value of the answer key; the value key is consulted only when the answer
key is absent. -/
theorem claim_C10_answer_precedence (cfg : ProcessorConfig)
    (elDef : ExtractionElement) (kvs : List (String × JValue)) (noteText : String) :
    (∀ a, jget kvs "answer" = some a →
      (buildItemOutput cfg elDef (.obj kvs) noteText).answer = a) ∧
    (∀ v, jget kvs "answer" = none → jget kvs "value" = some v →
      (buildItemOutput cfg elDef (.obj kvs) noteText).answer = v) := by
  constructor
  · intro a ha
    simp [buildItemOutput, ha]
  · intro v ha hv
    simp [buildItemOutput, ha, hv]

theorem claim_C10_answer_precedence_witness :
    (buildItemOutput ⟨⟨[]⟩, 0, none, none, fun _ _ _ => []⟩ ⟨false, false⟩
      (.obj [("answer", .str "A"), ("value", .str "V")]) "note").answer = .str "A" ∧
    (buildItemOutput ⟨⟨[]⟩, 0, none, none, fun _ _ _ => []⟩ ⟨false, false⟩
      (.obj [("value", .str "V")]) "note").answer = .str "V" :=
  ⟨(claim_C10_answer_precedence ⟨⟨[]⟩, 0, none, none, fun _ _ _ => []⟩ ⟨false, false⟩
      [("answer", .str "A"), ("value", .str "V")] "note").1 (.str "A") rfl,
    (claim_C10_answer_precedence ⟨⟨[]⟩, 0, none, none, fun _ _ _ => []⟩ ⟨false, false⟩
      [("value", .str "V")] "note").2 (.str "V") rfl rfl⟩

/-! ## Claim C1 -/

/-- The chunk's generation request succeeded (the retrying requester
returned success). -/
def retryRequestSucceeded : RetryResult → Bool
  | .success _ _ => true
  | .failure _ => false

/-- The parsed payload of a chunk whose request succeeded and whose response
parsed as a JSON object; none otherwise. -/
def retryParsedRaw : RetryResult → Option (List (String × JValue))
  | .success r _ =>
      match r.parsedContent with
      | .ok raw => some raw
      | .error _ => none
  | .failure _ => none

/-- The claim's wording read literally: the chunk's request succeeded and its
response parsed as valid structured data. -/
def chunkOkParsed (rr : RetryResult) : Bool := (retryParsedRaw rr).isSome

/-- What the code actually requires of a chunk for document success: request
succeeded and the parsed payload is truthy (a non-empty object). -/
def chunkOkParsedTruthy (rr : RetryResult) : Bool :=
  match retryParsedRaw rr with
  | some raw => !raw.isEmpty
  | none => false

/-- The merged extraction recomputed independently of the chunk loop: the
left-to-right dictionary union of the post-processed fields of every
chunk whose response parsed. -/
def traceExtraction (cfg : ProcessorConfig) (noteText : String)
    (trace : List (List String × RetryResult))
    (init : List (String × FieldOutput)) : List (String × FieldOutput) :=
  trace.foldl
    (fun acc p =>
      match retryParsedRaw p.2 with
      | some raw => dictUpdate acc (postProcessExtraction cfg raw noteText (some p.1))
      | none => acc)
    init

theorem postProcessExtraction_nil (cfg : ProcessorConfig) (noteText : String)
    (elementNames : Option (List String)) :
    postProcessExtraction cfg [] noteText elementNames = [] := by
  rw [postProcessExtraction]
  generalize resolveTargets cfg.schema elementNames = targets
  induction targets with
  | nil => rfl
  | cons t ts ih =>
      rcases h : getElement cfg.schema t with _ | el
      all_goals simp only [List.foldl_cons, h]
      · exact ih
      · exact ih

theorem processChunk_spec (cfg : ProcessorConfig) (client : Nat → AttemptResponse)
    (noteText : String) (st : ChunkState) (chunk : List String) :
    (processChunk cfg client noteText st chunk).1.overallSuccess =
      (st.overallSuccess &&
        chunkOkParsedTruthy (processChunk cfg client noteText st chunk).2) ∧
    (processChunk cfg client noteText st chunk).1.merged =
      (match retryParsedRaw (processChunk cfg client noteText st chunk).2 with
       | some raw => dictUpdate st.merged (postProcessExtraction cfg raw noteText (some chunk))
       | none => st.merged) := by
  rcases hrr : (callLLMWithRetry client st.callIdx cfg.maxRetries).1 with ⟨r, errs⟩ | errs
  · rcases hpc : r.parsedContent with pe | raw
    · constructor
      · simp [processChunk, hrr, hpc, chunkOkParsedTruthy, retryParsedRaw]
      · simp [processChunk, hrr, hpc, retryParsedRaw]
    · by_cases hraw : raw.isEmpty
      · have hraw2 : raw = [] := by simpa using hraw
        constructor
        · simp [processChunk, hrr, hpc, hraw, chunkOkParsedTruthy, retryParsedRaw]
        · subst hraw2
          simp [processChunk, hrr, hpc, retryParsedRaw,
            postProcessExtraction_nil, dictUpdate]
      · constructor
        · simp [processChunk, hrr, hpc, hraw, chunkOkParsedTruthy, retryParsedRaw]
        · simp [processChunk, hrr, hpc, hraw, retryParsedRaw]
  · constructor
    · simp [processChunk, hrr, chunkOkParsedTruthy, retryParsedRaw]
    · simp [processChunk, hrr, retryParsedRaw]

theorem runChunks_spec (cfg : ProcessorConfig) (client : Nat → AttemptResponse)
    (noteText : String) : ∀ (chunks : List (List String)) (st : ChunkState),
    (runChunks cfg client noteText chunks st).1.overallSuccess =
      (st.overallSuccess && (runChunks cfg client noteText chunks st).2.all
        (fun p => chunkOkParsedTruthy p.2)) ∧
    (runChunks cfg client noteText chunks st).1.merged =
      traceExtraction cfg noteText (runChunks cfg client noteText chunks st).2 st.merged := by
  intro chunks
  induction chunks with
  | nil =>
      intro st
      constructor
      · simp [runChunks]
      · simp [runChunks, traceExtraction]
  | cons c cs ih =>
      intro st
      have hchunk := processChunk_spec cfg client noteText st c
      have hrec := ih (processChunk cfg client noteText st c).1
      have hsplit1 : (runChunks cfg client noteText (c :: cs) st).1 =
          (runChunks cfg client noteText cs (processChunk cfg client noteText st c).1).1 := rfl
      have hsplit2 : (runChunks cfg client noteText (c :: cs) st).2 =
          (c, (processChunk cfg client noteText st c).2) ::
            (runChunks cfg client noteText cs (processChunk cfg client noteText st c).1).2 := rfl
      constructor
      · rw [hsplit1, hsplit2, hrec.1, hchunk.1, List.all_cons, Bool.and_assoc]
      · rw [hsplit1, hsplit2, hrec.2, hchunk.2]
        rfl

/-- C1 counterexample: a document whose single chunk's generation request
succeeds and whose response parses as the valid — but empty — JSON object
is marked success=false by process_note (the truthiness test on the
parsed payload treats it as a parse failure), so the claimed
biconditional between success and "every chunk's request succeeded and
every chunk's response parsed as valid structured data" is false at this
input. -/
theorem claim_C1_counterexample :
    ((processNote ⟨⟨[("a", ⟨false, false⟩)]⟩, 0, none, none, fun _ _ _ => []⟩
      (fun _ => .ok ⟨.ok [], 0, none, none⟩) 0 "doc" "text" none).trace.all
        (fun p => retryRequestSucceeded p.2 && chunkOkParsed p.2) = true) ∧
    (processNote ⟨⟨[("a", ⟨false, false⟩)]⟩, 0, none, none, fun _ _ _ => []⟩
      (fun _ => .ok ⟨.ok [], 0, none, none⟩) 0 "doc" "text" none).output.success =
      false :=
  ⟨rfl, rfl⟩

/-- C1 amended: for every document extraction, success = true iff every
chunk's generation request succeeded and every chunk's response parsed as
a truthy (non-empty) structured value — the code additionally counts a
parsed-but-falsy payload, such as the empty JSON object, as a chunk
failure — and the extraction map equals the left-to-right union of the
processed fields of all chunks whose response did parse, even when
success is false (a falsy parsed payload contributes no fields, so the
union over parsed chunks and over truthy-parsed chunks coincide). -/
theorem claim_C1_success_extraction (cfg : ProcessorConfig)
    (client : Nat → AttemptResponse) (callIdx : Nat) (noteId noteText : String)
    (elementNames : Option (List String)) :
    ((processNote cfg client callIdx noteId noteText elementNames).output.success = true ↔
      ∀ p ∈ (processNote cfg client callIdx noteId noteText elementNames).trace,
        chunkOkParsedTruthy p.2 = true) ∧
    (processNote cfg client callIdx noteId noteText elementNames).output.extraction =
      traceExtraction cfg noteText
        (processNote cfg client callIdx noteId noteText elementNames).trace [] := by
  have hspec := runChunks_spec cfg client noteText
    (planChunks (resolveTargets cfg.schema elementNames) cfg.maxElementsPerRequest)
    ⟨callIdx, [], [], true, 0, ⟨0, 0, 0⟩⟩
  constructor
  · show (runChunks cfg client noteText
        (planChunks (resolveTargets cfg.schema elementNames) cfg.maxElementsPerRequest)
        ⟨callIdx, [], [], true, 0, ⟨0, 0, 0⟩⟩).1.overallSuccess = true ↔
      ∀ p ∈ (runChunks cfg client noteText
        (planChunks (resolveTargets cfg.schema elementNames) cfg.maxElementsPerRequest)
        ⟨callIdx, [], [], true, 0, ⟨0, 0, 0⟩⟩).2, chunkOkParsedTruthy p.2 = true
    rw [hspec.1]
    simp only [Bool.true_and, List.all_eq_true]
  · show (runChunks cfg client noteText
        (planChunks (resolveTargets cfg.schema elementNames) cfg.maxElementsPerRequest)
        ⟨callIdx, [], [], true, 0, ⟨0, 0, 0⟩⟩).1.merged =
      traceExtraction cfg noteText
        (runChunks cfg client noteText
          (planChunks (resolveTargets cfg.schema elementNames) cfg.maxElementsPerRequest)
          ⟨callIdx, [], [], true, 0, ⟨0, 0, 0⟩⟩).2 []
    rw [hspec.2]

/-! ## Claim C5 -/

/-- The two-field schema of the partial-failure scenario, cap 1 per chunk,
no retries. -/
def scenarioCfg : ProcessorConfig :=
  ⟨⟨[("alpha", ⟨false, false⟩), ("beta", ⟨false, false⟩)]⟩, 0, some 1, none,
    fun _ _ _ => []⟩

/-- A client whose first call succeeds with a payload for alpha and whose
later calls fail. -/
def scenarioClient : Nat → AttemptResponse := fun i =>
  if i == 0 then .ok ⟨.ok [("alpha", .str "v")], 1, none, none⟩
  else .fail (some "xfail")

/-- C5: for a document whose targets split into two chunks, where chunk 1's
request succeeds and parses while chunk 2 exhausts all retries, the
result has success=false, an extraction carrying chunk 1's field only,
and — among its error entries (the per-attempt error and the chunk
failure message) — exactly one that references chunk 2's field. -/
theorem claim_C5_partial_failure :
    (processNote scenarioCfg scenarioClient 0 "doc" "text" none).output.success = false ∧
    (processNote scenarioCfg scenarioClient 0 "doc" "text" none).output.extraction.map
      Prod.fst = ["alpha"] ∧
    (processNote scenarioCfg scenarioClient 0 "doc" "text" none).output.errors =
      ["Attempt 1: xfail", "Max retries exceeded for chunk [\x27beta\x27]"] ∧
    ((processNote scenarioCfg scenarioClient 0 "doc" "text" none).output.errors.filter
      (fun e => containsSubstrB e "beta")).length = 1 :=
  ⟨rfl, rfl, rfl, rfl⟩

/-! ## Claim C4 -/

/-- C4: documents whose id is in the resume-ledger id set are skipped by
process_batch: the output carries exactly the (in-order) ids of the
non-skipped documents, so a ledger-covered document is never submitted
and yields no result; and over a stream fully covered by the ledger the
dispatch yields no output and leaves the generation-call counter
untouched — zero generation calls. -/
theorem claim_C4_resume_skip (cfg : ProcessorConfig) (client : Nat → AttemptResponse)
    (completed : List String) (callIdx : Nat) (elementNames : Option (List String))
    (notes : List (String × String)) :
    ((processBatch cfg client completed callIdx elementNames notes).1.map (fun o => o.id) =
      (notes.filter (fun n => !(completed.contains n.1))).map Prod.fst) ∧
    ((∀ n ∈ notes, completed.contains n.1 = true) →
      processBatch cfg client completed callIdx elementNames notes = ([], callIdx)) := by
  induction notes generalizing callIdx with
  | nil => exact ⟨rfl, fun _ => rfl⟩
  | cons nt rest ih =>
      obtain ⟨nid, ntext⟩ := nt
      by_cases h : nid ∈ completed
      · have he : processBatch cfg client completed callIdx elementNames
            ((nid, ntext) :: rest) =
            processBatch cfg client completed callIdx elementNames rest := by
          simp [processBatch, h]
        constructor
        · rw [he, (ih callIdx).1]
          simp [List.filter_cons, h]
        · intro hall
          rw [he]
          exact (ih callIdx).2 (fun n hn => hall n (List.mem_cons_of_mem _ hn))
      · have he : processBatch cfg client completed callIdx elementNames
            ((nid, ntext) :: rest) =
            ((processNote cfg client callIdx nid ntext elementNames).output ::
              (processBatch cfg client completed
                (processNote cfg client callIdx nid ntext elementNames).nextCall
                elementNames rest).1,
             (processBatch cfg client completed
                (processNote cfg client callIdx nid ntext elementNames).nextCall
                elementNames rest).2) := by
          simp [processBatch, h]
        constructor
        · rw [he]
          simp only [List.map_cons]
          rw [(ih _).1]
          simp only [List.filter_cons]
          rw [if_pos (by simp [h])]
          simp only [List.map_cons]
          rfl
        · intro hall
          exact absurd (by simpa using hall (nid, ntext) (by simp)) h

theorem claim_C4_resume_skip_witness :
    processBatch ⟨⟨[("a", ⟨false, false⟩)]⟩, 0, none, none, fun _ _ _ => []⟩
      (fun _ => .fail none) ["A", "B"] 0 none [("A", "t1"), ("B", "t2")] =
      ([], 0) :=
  (claim_C4_resume_skip ⟨⟨[("a", ⟨false, false⟩)]⟩, 0, none, none, fun _ _ _ => []⟩
    (fun _ => .fail none) ["A", "B"] 0 none [("A", "t1"), ("B", "t2")]).2
    (by
      rintro n hn
      rcases List.mem_cons.mp hn with rfl | hn2
      · rfl
      · rcases List.mem_cons.mp hn2 with rfl | hn3
        · rfl
        · simp at hn3)

/-! ## Claim C8 -/

/-- C8: at every suspension point of the dispatcher loop, the
submitted-but-not-yet-completed task set holds at most 2C tasks, where C
is the concurrency cap fixed at construction (a cap of at least one;
the threshold of the loop reads the semaphore's current value, which
never exceeds C). Fullness forces the asyncio.wait suspension, which by
FIRST_COMPLETED waits for at least one completion — not all — before the
next document is pulled, as the waitComplete transition records. -/
theorem claim_C8_inflight_bound (C : Nat) (hC : 1 ≤ C) (s : DispatchState)
    (hreach : DispatchReachable C s) : s.pending ≤ 2 * C := by
  have key : ∀ t : DispatchState, DispatchReachable C t →
      (t.inWait = false → t.pending + 1 ≤ 2 * C) ∧ t.pending ≤ 2 * C := by
    intro t ht
    induction ht with
    | refl =>
        constructor
        · intro _
          show 0 + 1 ≤ 2 * C
          omega
        · show 0 ≤ 2 * C
          omega
    | tail hab hstep ih =>
        obtain ⟨ih1, ih2⟩ := ih
        cases hstep with
        | submitNoWait p avail hav hsem =>
            have hb : p + 1 ≤ 2 * C := ih1 rfl
            refine ⟨fun _ => ?_, ?_⟩
            · show p + 1 + 1 ≤ 2 * C
              omega
            · show p + 1 ≤ 2 * C
              omega
        | submitWait p avail hav hsem =>
            have hb : p + 1 ≤ 2 * C := ih1 rfl
            refine ⟨fun hw => ?_, ?_⟩
            · exact absurd hw (by simp)
            · show p + 1 ≤ 2 * C
              omega
        | waitComplete p k hk1 hkp =>
            have hb : p ≤ 2 * C := ih2
            refine ⟨fun _ => ?_, ?_⟩
            · show p - k + 1 ≤ 2 * C
              omega
            · show p - k ≤ 2 * C
              omega
        | drainWait p hp =>
            have hb : p + 1 ≤ 2 * C := ih1 rfl
            refine ⟨fun hw => ?_, ?_⟩
            · exact absurd hw (by simp)
            · show p ≤ 2 * C
              omega
  exact (key s hreach).2

theorem claim_C8_inflight_bound_witness :
    (DispatchState.mk 1 true).pending ≤ 2 * 1 :=
  claim_C8_inflight_bound 1 (by omega) ⟨1, true⟩
    (Relation.ReflTransGen.single (DispatchStep.submitWait 0 0 (by omega) (by omega)))
